import Mathlib

/-!
Shallow embedding of `src/app.py` (Flask event-ingestion service).

The mutable global `events_store` (a Python list guarded by `store_lock`)
is modelled as an explicit `List StoredEvent` threaded through each
handler.  Python strings used as timestamps are modelled by `TimeStr`
(empty / parseable / unparsable), payload strings by `List Char`
(Python slices strings by character), and wall-clock readings
(`datetime.utcnow()` and `time.time()`) by a single `Int` epoch-seconds
parameter `now` supplied to each handler.  Exceptions are modelled by
`Except Unit`.
-/

deriving instance DecidableEq for Except

/-- Identity of a stored event: GitHub feed ids are upstream strings
(`.api`), webhook ids are synthesized as `webhook_{int(time.time()*1000)}`
(`.webhook` applied to the clock reading). -/
inductive EventId where
  | api (n : Nat)
  | webhook (t : Int)
deriving DecidableEq

/-- A source `created_at` string as `parse_github_time` distinguishes it:
falsy (`None` or `""`), parseable to an epoch instant `t`, or a non-empty
string on which `datetime.fromisoformat` raises `ValueError`. -/
inductive TimeStr where
  | empty
  | valid (t : Int)
  | malformed
deriving DecidableEq

/-- `parse_github_time` (src/app.py:14-21): a falsy string yields
`datetime.utcnow()`; otherwise `fromisoformat` either parses the string
to an instant or raises. -/
def parse_github_time (s : TimeStr) (now : Int) : Except Unit Int :=
  match s with
  | .empty => .ok now
  | .valid t => .ok t
  | .malformed => .error ()

/-- `str(payload)[:200] + '...'` (src/app.py:66 and :103). -/
def pySummary (l : List Char) : List Char :=
  l.take 200 ++ ['.', '.', '.']

/-- `MAX` retained events: the `[:100]` truncation at src/app.py:74,110. -/
def MAX_CAPACITY : Nat := 100

/-- A `display_event` dict as stored in `events_store`
(`formatted_time`, a pure display string, is omitted). -/
structure StoredEvent where
  id : EventId
  type : String
  actor : String
  created_at : TimeStr
  payload : List Char
  repo : String
  source : String
deriving DecidableEq

/-- A raw record of the deserialized GitHub feed batch.  `none` fields
are absent keys (`event.get(...)` returns `None`; `event[...]` raises
`KeyError`).  `payloadStr` stands for `str(event.get('payload', {}))`. -/
structure RawRecord where
  id : Option EventId
  type : Option String
  actor : Option String
  created_at : Option TimeStr
  payloadStr : List Char
deriving DecidableEq

/-- A JSON field value of a webhook mapping about which the handler calls
`.get`: either a nested mapping carrying the one sub-field the handler
reads, or a non-mapping value (on which `.get` raises AttributeError). -/
inductive JField where
  | dict (v : Option String)
  | nonDict
deriving DecidableEq

/-- A deserialized webhook body that is a mapping.  `payloadStr` stands
for `str(data)`. -/
structure WebhookData where
  action : Option String
  sender : Option JField
  repository : Option JField
  payloadStr : List Char
deriving DecidableEq

/-- `data.get(key, {}).get(subkey, default)` (src/app.py:100,104). -/
def jGet (f : Option JField) (dflt : String) : Except Unit String :=
  match f with
  | none => .ok dflt
  | some (.dict v) => .ok (v.getD dflt)
  | some .nonDict => .error ()

/-- Sort key extraction for the store trim:
`parse_github_time(x.get('created_at'))` for each stored event
(src/app.py:74,110); Python precomputes every key before sorting. -/
def withKeys (now : Int) : List StoredEvent → Except Unit (List (Int × StoredEvent))
  | [] => .ok []
  | e :: es =>
    match parse_github_time e.created_at now with
    | .error u => .error u
    | .ok t =>
      match withKeys now es with
      | .error u => .error u
      | .ok rest => .ok ((t, e) :: rest)

/-- The comparator of `sorted(..., key=parse_github_time, reverse=True)`:
`a` precedes `b` when `b`'s key is at most `a`'s key.  Python's sort is
stable, as is `List.insertionSort` with this relation. -/
def keyGE (a b : Int × StoredEvent) : Prop := b.1 ≤ a.1

instance : DecidableRel keyGE := fun a b => inferInstanceAs (Decidable (b.1 ≤ a.1))

instance : IsTotal (Int × StoredEvent) keyGE := ⟨fun a b => (le_total b.1 a.1).imp id id⟩

instance : IsTrans (Int × StoredEvent) keyGE :=
  ⟨fun _ _ _ hab hbc => le_trans hbc hab⟩

/-- `sorted(events, key=lambda x: parse_github_time(x.get('created_at')), reverse=True)`. -/
def pySortDesc (l : List (Int × StoredEvent)) : List (Int × StoredEvent) :=
  List.insertionSort keyGE l

/-- `events_store[:] = sorted(events_store, key=..., reverse=True)[:100]`
(src/app.py:74 and :110). -/
def trim (now : Int) (l : List StoredEvent) : Except Unit (List StoredEvent) :=
  match withKeys now l with
  | .error u => .error u
  | .ok ks => .ok (((pySortDesc ks).take MAX_CAPACITY).map (·.2))

/-- The `display_event` dict built at src/app.py:60-69 for a feed record
whose `id`, `type` and `created_at` keys are present. -/
def mkApiEvent (repo : String) (r : RawRecord) (i : EventId) (ty : String)
    (ts : TimeStr) : StoredEvent :=
  { id := i, type := ty, actor := r.actor.getD "unknown", created_at := ts,
    payload := pySummary r.payloadStr, repo := repo, source := "github_api" }

/-- Loop state of the `for event in api_events` loop of `fetch_events`:
the store, the `existing_ids` set, the `fresh_events` list, and whether
an uncaught exception has escaped the loop (caught at src/app.py:89-90). -/
structure PollSt where
  store : List StoredEvent
  seen : List EventId
  fresh : List StoredEvent
  aborted : Bool
deriving DecidableEq

/-- One iteration of the loop at src/app.py:54-77.  In evaluation order:
`parse_github_time` of the `created_at` value (raises on an unparsable
string), the `event_id and event_id not in existing_ids and event_time >
cutoff` guard, then the dict literal (raising `KeyError` when `type` or
`created_at` is an absent key), then append + sort-truncate under the
lock, then `fresh_events.append` and `existing_ids.add`. -/
def recordStep (now cutoff : Int) (repo : String) (s : PollSt) (r : RawRecord) : PollSt :=
  if s.aborted then s
  else
    match parse_github_time (r.created_at.getD .empty) now with
    | .error _ => { s with aborted := true }
    | .ok t =>
      match r.id with
      | none => s
      | some i =>
        if i ∈ s.seen then s
        else if t > cutoff then
          match r.type with
          | none => { s with aborted := true }
          | some ty =>
            match r.created_at with
            | none => { s with aborted := true }
            | some ts =>
              let ev := mkApiEvent repo r i ty ts
              match trim now (s.store ++ [ev]) with
              | .ok st' =>
                { store := st', seen := s.seen ++ [i],
                  fresh := s.fresh ++ [ev], aborted := false }
              | .error _ => { s with store := s.store ++ [ev], aborted := true }
        else s

/-- The JSON body returned by a successful `/api/events` call
(src/app.py:79-85; the echoed `repo`/`status` fields are omitted). -/
structure PollResult where
  new_events : Nat
  total_events : Nat
  sample_events : List StoredEvent
deriving DecidableEq

/-- `fetch_events` (src/app.py:34-90) after the external HTTP fetch: the
24-hour cutoff, the `existing_ids` snapshot of the store, the per-record
loop, and the summary body.  Returns the final store (the global list
retains mid-batch insertions even when the handler answers 500) together
with the response (`.error` for the 500 path).  `pollInit` is the state
at src/app.py:50-52: `cutoff`, the `existing_ids` snapshot, empty
`fresh_events`. -/
def pollInit (st : List StoredEvent) : PollSt :=
  { store := st, seen := st.map (·.id), fresh := [], aborted := false }

/-- Building the response from the final loop state (src/app.py:79-90). -/
def pollDone (fin : PollSt) : List StoredEvent × Except Unit PollResult :=
  if fin.aborted then (fin.store, .error ())
  else
    (fin.store,
     .ok { new_events := fin.fresh.length, total_events := fin.store.length,
           sample_events := fin.fresh.take 5 })

def fetch_events (now : Int) (repo : String) (st : List StoredEvent)
    (batch : List RawRecord) : List StoredEvent × Except Unit PollResult :=
  pollDone (batch.foldl (recordStep now (now - 86400) repo) (pollInit st))

/-- The `webhook_event` dict built at src/app.py:97-106 from a mapping
body; raises when a present `sender` or `repository` value is not a
mapping. -/
def mkWebhookEvent (now : Int) (data : WebhookData) : Except Unit StoredEvent :=
  match jGet data.sender "github-webhook" with
  | .error u => .error u
  | .ok login =>
    match jGet data.repository "webhook" with
    | .error u => .error u
    | .ok repoName =>
      .ok { id := .webhook now, type := data.action.getD "webhook_event",
            actor := login, created_at := .valid now,
            payload := pySummary data.payloadStr, repo := repoName,
            source := "github_webhook" }

/-- `github_webhook` (src/app.py:92-117) for a mapping body: build the
event, `insert(0, ...)`, sort-truncate; any exception is caught and the
handler answers 400 (the insert precedes the sort, so a sort failure
leaves the inserted, untruncated list behind). -/
def github_webhook (now : Int) (st : List StoredEvent) (data : WebhookData) :
    List StoredEvent × Except Unit StoredEvent :=
  match mkWebhookEvent now data with
  | .error _ => (st, .error ())
  | .ok ev =>
    match trim now (ev :: st) with
    | .ok st' => (st', .ok ev)
    | .error _ => (ev :: st, .error ())

/-- Filter loop of `dashboard` (src/app.py:23-32): keep the stored events
with `parse_github_time(e.get('created_at')) > cutoff`, in store order. -/
def dashboardAux (now cutoff : Int) : List StoredEvent → Except Unit (List StoredEvent)
  | [] => .ok []
  | e :: es =>
    match parse_github_time e.created_at now with
    | .error u => .error u
    | .ok t =>
      match dashboardAux now cutoff es with
      | .error u => .error u
      | .ok rest => .ok (if t > cutoff then e :: rest else rest)

/-- `dashboard` (src/app.py:23-32): the last-24h read-only view.  It does
not mutate the store. -/
def dashboard (now : Int) (st : List StoredEvent) : Except Unit (List StoredEvent) :=
  dashboardAux now (now - 86400) st

/-- `clear_events` (src/app.py:119-124). -/
def clear_events (_st : List StoredEvent) : List StoredEvent := []

/-- All stored timestamps can be re-parsed (true of every reachable
store: both ingestion paths parse the string before storing it). -/
def wellFormed (st : List StoredEvent) : Prop :=
  ∀ e ∈ st, e.created_at ≠ TimeStr.malformed

instance : DecidablePred wellFormed := fun st =>
  inferInstanceAs (Decidable (∀ e ∈ st, e.created_at ≠ TimeStr.malformed))

/-- The instant `parse_github_time` yields for a stored event's
timestamp (total version; on the unreachable `malformed` case it
returns `now`). -/
def timeOf (now : Int) (e : StoredEvent) : Int :=
  match e.created_at with
  | .empty => now
  | .valid t => t
  | .malformed => now

/-- Invariant of the loop state: parseable stored timestamps, capacity
bound, no duplicate identities, and every stored identity is in the
`existing_ids` set. -/
def InvS (s : PollSt) : Prop :=
  wellFormed s.store ∧ s.store.length ≤ MAX_CAPACITY ∧
  (s.store.map (·.id)).Nodup ∧ (∀ i ∈ s.store.map (·.id), i ∈ s.seen)

/-- Every stored and every reported-fresh event has a bounded payload. -/
def PayloadOk (s : PollSt) : Prop :=
  (∀ e ∈ s.store, e.payload.length ≤ 203) ∧ (∀ e ∈ s.fresh, e.payload.length ≤ 203)

/-! ### Concrete inputs used to exercise the model -/

/-- A stored feed event with id `api n` and a parseable timestamp `t`. -/
def evAt (n : Nat) (t : Int) : StoredEvent :=
  { id := .api n, type := "PushEvent", actor := "alice", created_at := .valid t,
    payload := [], repo := "o/r", source := "github_api" }

/-- A complete feed record with id `api n` and timestamp `t`. -/
def recAt (n : Nat) (t : Int) : RawRecord :=
  { id := some (.api n), type := some "PushEvent", actor := some "alice",
    created_at := some (.valid t), payloadStr := [] }

/-- A feed record whose `id` key is absent. -/
def noIdRec : RawRecord :=
  { id := none, type := some "PushEvent", actor := some "alice",
    created_at := some (.valid 199500), payloadStr := [] }

/-- A feed record with an `id` but no `type` key. -/
def noTypeRec : RawRecord :=
  { id := some (.api 2), type := none, actor := some "alice",
    created_at := some (.valid 199000), payloadStr := [] }

/-- The empty webhook mapping (its `str()` form is the two characters of
an empty dict display). -/
def emptyHook : WebhookData :=
  { action := none, sender := none, repository := none, payloadStr := ['{', '}'] }

/-- A batch of 100 distinct fresh records that exactly fills the store. -/
def bigBatch : List RawRecord := (List.range 100).map (fun n => recAt n (199900 - n))

/-- A record within the 24-hour window (for `now = 200000`) but older
than every record of `bigBatch`. -/
def oldRec : RawRecord := recAt 500 150000

/-! ### Helper lemmas about parsing, sorting and the trim operation -/

lemma parse_eq_timeOf (now : Int) (e : StoredEvent) (h : e.created_at ≠ TimeStr.malformed) :
    parse_github_time e.created_at now = .ok (timeOf now e) := by
  cases hc : e.created_at with
  | empty => simp [parse_github_time, timeOf, hc]
  | valid t => simp [parse_github_time, timeOf, hc]
  | malformed => exact absurd hc h

lemma withKeys_eq_of_wf (now : Int) : ∀ l, wellFormed l →
    withKeys now l = .ok (l.map (fun e => (timeOf now e, e)))
  | [], _ => rfl
  | e :: es, h => by
    have he : e.created_at ≠ TimeStr.malformed := h e (List.mem_cons_self ..)
    have hes : wellFormed es := fun x hx => h x (List.mem_cons_of_mem _ hx)
    simp [withKeys, parse_eq_timeOf now e he, withKeys_eq_of_wf now es hes]

lemma withKeys_map_snd (now : Int) : ∀ {l ks}, withKeys now l = .ok ks →
    ks.map (·.2) = l
  | [], ks, h => by
    simp only [withKeys] at h
    cases h
    rfl
  | e :: es, ks, h => by
    unfold withKeys at h
    cases hp : parse_github_time e.created_at now with
    | error u => rw [hp] at h; cases h
    | ok t =>
      rw [hp] at h
      cases hr : withKeys now es with
      | error u => rw [hr] at h; cases h
      | ok rest =>
        rw [hr] at h
        cases h
        simp [withKeys_map_snd now hr]

lemma pySortDesc_perm (l : List (Int × StoredEvent)) : List.Perm (pySortDesc l) l :=
  List.perm_insertionSort keyGE l

lemma pySortDesc_sorted (l : List (Int × StoredEvent)) :
    List.Sorted keyGE (pySortDesc l) :=
  List.sorted_insertionSort keyGE l

lemma trim_subperm {now : Int} {l l' : List StoredEvent} (h : trim now l = .ok l') :
    List.Subperm l' l := by
  unfold trim at h
  cases hk : withKeys now l with
  | error u => rw [hk] at h; cases h
  | ok ks =>
    rw [hk] at h
    cases h
    have h1 : List.Sublist (((pySortDesc ks).take MAX_CAPACITY).map (·.2))
        ((pySortDesc ks).map (·.2)) :=
      (List.take_sublist _ _).map _
    have h2 : List.Perm ((pySortDesc ks).map (·.2)) l := by
      rw [← withKeys_map_snd now hk]
      exact (pySortDesc_perm ks).map _
    exact h1.subperm.trans h2.subperm

lemma trim_length {now : Int} {l l' : List StoredEvent} (h : trim now l = .ok l') :
    l'.length ≤ MAX_CAPACITY := by
  unfold trim at h
  cases hk : withKeys now l with
  | error u => rw [hk] at h; cases h
  | ok ks =>
    rw [hk] at h
    cases h
    simp

lemma trim_eq_of_wf {now : Int} {l : List StoredEvent} (h : wellFormed l) :
    trim now l =
      .ok (((pySortDesc (l.map fun e => (timeOf now e, e))).take MAX_CAPACITY).map (·.2)) := by
  unfold trim
  rw [withKeys_eq_of_wf now l h]

lemma trim_perm_of_le {now : Int} {l l' : List StoredEvent} (hw : wellFormed l)
    (hl : l.length ≤ MAX_CAPACITY) (h : trim now l = .ok l') : List.Perm l' l := by
  rw [trim_eq_of_wf hw] at h
  cases h
  have hlen : (pySortDesc (l.map fun e => (timeOf now e, e))).length ≤ MAX_CAPACITY := by
    rw [(pySortDesc_perm _).length_eq, List.length_map]
    exact hl
  rw [List.take_of_length_le hlen]
  have h2 := (pySortDesc_perm (l.map fun e => (timeOf now e, e))).map (·.2)
  simpa [List.map_map, Function.comp_def] using h2

lemma trim_evict {now : Int} {l l' : List StoredEvent} (hw : wellFormed l)
    (h : trim now l = .ok l') :
    ∃ dropped, List.Perm (l' ++ dropped) l ∧
      ∀ a ∈ l', ∀ b ∈ dropped, timeOf now b ≤ timeOf now a := by
  rw [trim_eq_of_wf hw] at h
  cases h
  set ks := l.map fun e => (timeOf now e, e) with hks
  refine ⟨((pySortDesc ks).drop MAX_CAPACITY).map (·.2), ?_, ?_⟩
  · rw [← List.map_append, List.take_append_drop]
    have h2 : List.Perm ((pySortDesc ks).map (·.2)) (ks.map (·.2)) :=
      (pySortDesc_perm ks).map _
    simpa [hks, List.map_map, Function.comp_def] using h2
  · intro a ha b hb
    obtain ⟨p, hp, hpa⟩ := List.mem_map.mp ha
    obtain ⟨q, hq, hqb⟩ := List.mem_map.mp hb
    have hkey : ∀ x ∈ pySortDesc ks, x.1 = timeOf now x.2 := by
      intro x hx
      have hx2 : x ∈ ks := (pySortDesc_perm ks).mem_iff.mp hx
      obtain ⟨e, _, he⟩ := List.mem_map.mp hx2
      rw [← he]
    have hs := pySortDesc_sorted ks
    rw [← List.take_append_drop MAX_CAPACITY (pySortDesc ks)] at hs
    have hcross := (List.pairwise_append.mp hs).2.2 p hp q hq
    have h1 := hkey p (List.mem_of_mem_take hp)
    have h2 := hkey q (List.mem_of_mem_drop hq)
    rw [← hpa, ← hqb, ← h1, ← h2]
    exact hcross

/-! ### Case analysis of one poll-loop iteration -/

lemma recordStep_of_aborted {now cutoff : Int} {repo : String} {s : PollSt} {r : RawRecord}
    (h : s.aborted = true) : recordStep now cutoff repo s r = s := by
  simp [recordStep, h]

lemma foldl_of_aborted (now cutoff : Int) (repo : String) :
    ∀ (batch : List RawRecord) (s : PollSt), s.aborted = true →
      batch.foldl (recordStep now cutoff repo) s = s
  | [], _, _ => rfl
  | r :: rs, s, h => by
    rw [List.foldl_cons, recordStep_of_aborted h]
    exact foldl_of_aborted now cutoff repo rs s h

/-- The four possible outcomes of one loop iteration: skip, raise before
any store mutation, insert-and-truncate, or raise from the sort after the
append (only possible when a stored timestamp fails to re-parse). -/
lemma recordStep_cases (now cutoff : Int) (repo : String) (s : PollSt) (r : RawRecord) :
    recordStep now cutoff repo s r = s ∨
    recordStep now cutoff repo s r = { s with aborted := true } ∨
    (∃ i ty ts st', r.id = some i ∧ ¬ i ∈ s.seen ∧ r.type = some ty ∧ r.created_at = some ts ∧
      ts ≠ TimeStr.malformed ∧
      trim now (s.store ++ [mkApiEvent repo r i ty ts]) = .ok st' ∧
      recordStep now cutoff repo s r =
        { store := st', seen := s.seen ++ [i],
          fresh := s.fresh ++ [mkApiEvent repo r i ty ts], aborted := false }) ∨
    (∃ i ty ts, r.id = some i ∧ r.type = some ty ∧ r.created_at = some ts ∧
      ts ≠ TimeStr.malformed ∧
      trim now (s.store ++ [mkApiEvent repo r i ty ts]) = .error () ∧
      recordStep now cutoff repo s r =
        { s with store := s.store ++ [mkApiEvent repo r i ty ts], aborted := true }) := by
  by_cases ha : s.aborted
  · exact Or.inl (recordStep_of_aborted ha)
  · cases hp : parse_github_time (r.created_at.getD .empty) now with
    | error u =>
      exact Or.inr (Or.inl (by simp [recordStep, ha, hp]))
    | ok t =>
      cases hid : r.id with
      | none => exact Or.inl (by simp [recordStep, ha, hp, hid])
      | some i =>
        by_cases hm : i ∈ s.seen
        · exact Or.inl (by simp [recordStep, ha, hp, hid, hm])
        · by_cases hc : t > cutoff
          · cases hty : r.type with
            | none =>
              exact Or.inr (Or.inl (by simp [recordStep, ha, hp, hid, hm, hc, hty]))
            | some ty =>
              cases hts : r.created_at with
              | none =>
                have hp2 : parse_github_time TimeStr.empty now = Except.ok t := by
                  rw [hts] at hp
                  exact hp
                exact Or.inr (Or.inl (by simp [recordStep, ha, hp2, hid, hm, hc, hty, hts]))
              | some ts =>
                have hp2 : parse_github_time ts now = Except.ok t := by
                  rw [hts] at hp
                  exact hp
                have hwts : ts ≠ TimeStr.malformed := by
                  intro hbad
                  rw [hbad] at hp2
                  simp [parse_github_time] at hp2
                cases htr : trim now (s.store ++ [mkApiEvent repo r i ty ts]) with
                | ok st' =>
                  refine Or.inr (Or.inr (Or.inl ⟨i, ty, ts, st', rfl, hm, rfl, rfl, hwts, ?_, ?_⟩))
                  · exact htr
                  · simp [recordStep, ha, hp2, hid, hm, hc, hty, hts, htr]
                | error u =>
                  refine Or.inr (Or.inr (Or.inr ⟨i, ty, ts, rfl, rfl, rfl, hwts, ?_, ?_⟩))
                  · cases u
                    exact htr
                  · simp [recordStep, ha, hp2, hid, hm, hc, hty, hts, htr]
          · exact Or.inl (by simp [recordStep, ha, hp, hid, hm, hc])

/-! ### Reachable-state invariant of the poll loop -/

lemma wellFormed_append_event {st : List StoredEvent} {ev : StoredEvent}
    (hw : wellFormed st) (hev : ev.created_at ≠ TimeStr.malformed) :
    wellFormed (st ++ [ev]) := by
  intro e he
  rcases List.mem_append.mp he with h1 | h1
  · exact hw e h1
  · rw [List.mem_singleton.mp h1]
    exact hev

lemma recordStep_inv {now cutoff : Int} {repo : String} {s : PollSt} {r : RawRecord}
    (h : InvS s) : InvS (recordStep now cutoff repo s r) := by
  rcases recordStep_cases now cutoff repo s r with heq | heq |
    ⟨i, ty, ts, st', hid, hm, hty, hts, hwts, htr, heq⟩ |
    ⟨i, ty, ts, hid, hty, hts, hwts, htr, heq⟩
  · rw [heq]
    exact h
  · rw [heq]
    exact h
  · rw [heq]
    obtain ⟨hw, hlen, hnd, hsub⟩ := h
    have hwev : (mkApiEvent repo r i ty ts).created_at ≠ TimeStr.malformed := hwts
    have hwapp : wellFormed (s.store ++ [mkApiEvent repo r i ty ts]) :=
      wellFormed_append_event hw hwev
    have hsp := trim_subperm htr
    refine ⟨fun e he => hwapp e (hsp.subset he), trim_length htr, ?_, ?_⟩
    · have hndapp : ((s.store ++ [mkApiEvent repo r i ty ts]).map (·.id)).Nodup := by
        rw [List.map_append]
        rw [List.nodup_append]
        refine ⟨hnd, List.nodup_singleton _, ?_⟩
        intro a hain
        simp only [mkApiEvent, List.map_cons, List.map_nil, List.mem_singleton]
        intro hai
        exact hm (hai ▸ hsub a hain)
      obtain ⟨m, hpm, hsl⟩ := hsp
      have : (st'.map (·.id)).Nodup := by
        have h1 : (m.map (·.id)).Nodup := (hndapp.sublist (hsl.map (·.id)))
        exact (hpm.map (·.id)).nodup_iff.mp h1
      exact this
    · intro a hain
      obtain ⟨e, he, hea⟩ := List.mem_map.mp hain
      have hein : e ∈ s.store ++ [mkApiEvent repo r i ty ts] := hsp.subset he
      rcases List.mem_append.mp hein with h1 | h1
      · have : a ∈ s.store.map (·.id) := List.mem_map.mpr ⟨e, h1, hea⟩
        exact List.mem_append_left _ (hsub a this)
      · rw [List.mem_singleton.mp h1] at hea
        rw [← hea]
        simp [mkApiEvent]
  · exfalso
    obtain ⟨hw, _, _, _⟩ := h
    have hwapp : wellFormed (s.store ++ [mkApiEvent repo r i ty ts]) :=
      wellFormed_append_event hw hwts
    rw [trim_eq_of_wf hwapp] at htr
    cases htr

lemma foldl_inv (now cutoff : Int) (repo : String) :
    ∀ (batch : List RawRecord) (s : PollSt), InvS s →
      InvS (batch.foldl (recordStep now cutoff repo) s)
  | [], _, h => h
  | r :: rs, s, h => by
    rw [List.foldl_cons]
    exact foldl_inv now cutoff repo rs _ (recordStep_inv h)

/-! ### Payload bound, skip behaviour, seen-set monotonicity -/

lemma pySummary_length (l : List Char) : (pySummary l).length ≤ 203 := by
  simp [pySummary]

lemma recordStep_payload {now cutoff : Int} {repo : String} {s : PollSt} {r : RawRecord}
    (h : PayloadOk s) : PayloadOk (recordStep now cutoff repo s r) := by
  obtain ⟨hst, hfr⟩ := h
  have hev : ∀ i ty ts, (mkApiEvent repo r i ty ts).payload.length ≤ 203 := by
    intro i ty ts
    simpa [mkApiEvent] using pySummary_length r.payloadStr
  rcases recordStep_cases now cutoff repo s r with heq | heq |
    ⟨i, ty, ts, st', _, _, _, _, _, htr, heq⟩ | ⟨i, ty, ts, _, _, _, _, _, heq⟩
  · rw [heq]
    exact ⟨hst, hfr⟩
  · rw [heq]
    exact ⟨hst, hfr⟩
  · rw [heq]
    constructor
    · intro e he
      have := (trim_subperm htr).subset he
      rcases List.mem_append.mp this with h1 | h1
      · exact hst e h1
      · rw [List.mem_singleton.mp h1]
        exact hev i ty ts
    · intro e he
      rcases List.mem_append.mp he with h1 | h1
      · exact hfr e h1
      · rw [List.mem_singleton.mp h1]
        exact hev i ty ts
  · rw [heq]
    refine ⟨?_, hfr⟩
    intro e he
    rcases List.mem_append.mp he with h1 | h1
    · exact hst e h1
    · rw [List.mem_singleton.mp h1]
      exact hev i ty ts

lemma foldl_payload (now cutoff : Int) (repo : String) :
    ∀ (batch : List RawRecord) (s : PollSt), PayloadOk s →
      PayloadOk (batch.foldl (recordStep now cutoff repo) s)
  | [], _, h => h
  | r :: rs, s, h => by
    rw [List.foldl_cons]
    exact foldl_payload now cutoff repo rs _ (recordStep_payload h)

lemma recordStep_seen_sub {now cutoff : Int} {repo : String} {s : PollSt} {r : RawRecord} :
    ∀ x ∈ s.seen, x ∈ (recordStep now cutoff repo s r).seen := by
  rcases recordStep_cases now cutoff repo s r with heq | heq |
    ⟨i, ty, ts, st', _, _, _, _, _, _, heq⟩ | ⟨i, ty, ts, _, _, _, _, _, heq⟩ <;>
    rw [heq] <;> intro x hx
  · exact hx
  · exact hx
  · exact List.mem_append_left _ hx
  · exact hx

lemma foldl_seen_sub (now cutoff : Int) (repo : String) :
    ∀ (batch : List RawRecord) (s : PollSt),
      ∀ x ∈ s.seen, x ∈ (batch.foldl (recordStep now cutoff repo) s).seen
  | [], _, _, hx => hx
  | r :: rs, s, x, hx => by
    rw [List.foldl_cons]
    exact foldl_seen_sub now cutoff repo rs _ x (recordStep_seen_sub x hx)

/-- A record with no `id`, an already-seen `id`, or a timestamp at or
before the cutoff is skipped: the loop state is unchanged. -/
lemma recordStep_skip {now cutoff : Int} {repo : String} {s : PollSt} {r : RawRecord}
    (ha : s.aborted = false) {t : Int}
    (hp : parse_github_time (r.created_at.getD .empty) now = .ok t)
    (hcase : r.id = none ∨ (∃ i, r.id = some i ∧ i ∈ s.seen) ∨ t ≤ cutoff) :
    recordStep now cutoff repo s r = s := by
  rcases hcase with h | ⟨i, hi, hmem⟩ | h
  · simp [recordStep, ha, hp, h]
  · simp [recordStep, ha, hp, hi, hmem]
  · cases hid : r.id with
    | none => simp [recordStep, ha, hp, hid]
    | some i =>
      by_cases hm : i ∈ s.seen
      · simp [recordStep, ha, hp, hid, hm]
      · simp [recordStep, ha, hp, hid, hm, not_lt.mpr h]

/-- If every record of the batch is skippable for the current seen set,
the whole loop is the identity on the state. -/
lemma foldl_skip_all (now cutoff : Int) (repo : String) :
    ∀ (batch : List RawRecord) (s : PollSt), s.aborted = false →
      (∀ r ∈ batch, ∃ t, parse_github_time (r.created_at.getD .empty) now = .ok t ∧
        (r.id = none ∨ (∃ i, r.id = some i ∧ i ∈ s.seen) ∨ t ≤ cutoff)) →
      batch.foldl (recordStep now cutoff repo) s = s
  | [], _, _, _ => rfl
  | r :: rs, s, ha, hall => by
    obtain ⟨t, hp, hcase⟩ := hall r (List.mem_cons_self ..)
    rw [List.foldl_cons, recordStep_skip ha hp hcase]
    exact foldl_skip_all now cutoff repo rs s ha
      (fun x hx => hall x (List.mem_cons_of_mem _ hx))

/-- Refined outcome analysis when neither the incoming nor the outgoing
state is aborted: the record either leaves the state unchanged for one of
the three skip reasons or is inserted. -/
lemma recordStep_ok_cases {now cutoff : Int} {repo : String} {s : PollSt} {r : RawRecord}
    (ha : s.aborted = false)
    (h2 : (recordStep now cutoff repo s r).aborted = false) :
    ∃ t, parse_github_time (r.created_at.getD .empty) now = .ok t ∧
      ((recordStep now cutoff repo s r = s ∧
        (r.id = none ∨ (∃ i, r.id = some i ∧ i ∈ s.seen) ∨ t ≤ cutoff)) ∨
       (∃ i ty ts st', r.id = some i ∧ ¬ i ∈ s.seen ∧ cutoff < t ∧
        r.type = some ty ∧ r.created_at = some ts ∧ ts ≠ TimeStr.malformed ∧
        trim now (s.store ++ [mkApiEvent repo r i ty ts]) = .ok st' ∧
        recordStep now cutoff repo s r =
          { store := st', seen := s.seen ++ [i],
            fresh := s.fresh ++ [mkApiEvent repo r i ty ts], aborted := false })) := by
  cases hp : parse_github_time (r.created_at.getD .empty) now with
  | error u =>
    exfalso
    have : recordStep now cutoff repo s r = { s with aborted := true } := by
      simp [recordStep, ha, hp]
    rw [this] at h2
    cases h2
  | ok t =>
    refine ⟨t, rfl, ?_⟩
    cases hid : r.id with
    | none => exact Or.inl ⟨by simp [recordStep, ha, hp, hid], Or.inl rfl⟩
    | some i =>
      by_cases hm : i ∈ s.seen
      · exact Or.inl ⟨by simp [recordStep, ha, hp, hid, hm], Or.inr (Or.inl ⟨i, rfl, hm⟩)⟩
      · by_cases hc : t > cutoff
        · cases hty : r.type with
          | none =>
            exfalso
            have : recordStep now cutoff repo s r = { s with aborted := true } := by
              simp [recordStep, ha, hp, hid, hm, hc, hty]
            rw [this] at h2
            cases h2
          | some ty =>
            cases hts : r.created_at with
            | none =>
              exfalso
              have hp2 : parse_github_time TimeStr.empty now = Except.ok t := by
                rw [hts] at hp
                exact hp
              have : recordStep now cutoff repo s r = { s with aborted := true } := by
                simp [recordStep, ha, hp2, hid, hm, hc, hty, hts]
              rw [this] at h2
              cases h2
            | some ts =>
              have hp2 : parse_github_time ts now = Except.ok t := by
                rw [hts] at hp
                exact hp
              have hwts : ts ≠ TimeStr.malformed := by
                intro hbad
                rw [hbad] at hp2
                simp [parse_github_time] at hp2
              cases htr : trim now (s.store ++ [mkApiEvent repo r i ty ts]) with
              | ok st' =>
                refine Or.inr ⟨i, ty, ts, st', rfl, hm, hc, rfl, rfl, hwts, htr, ?_⟩
                simp [recordStep, ha, hp2, hid, hm, hc, hty, hts, htr]
              | error u =>
                exfalso
                have : recordStep now cutoff repo s r =
                    { s with store := s.store ++ [mkApiEvent repo r i ty ts], aborted := true } := by
                  simp [recordStep, ha, hp2, hid, hm, hc, hty, hts, htr]
                rw [this] at h2
                cases h2
        · exact Or.inl ⟨by simp [recordStep, ha, hp, hid, hm, hc],
            Or.inr (Or.inr (le_of_not_lt hc))⟩

/-! ### Tracking the poll loop when capacity is never exceeded -/

/-- When the initial store plus the whole batch fit within capacity and
the loop completes without raising, the final `existing_ids` set is a
permutation of the final stored identities, and every batch record either
had no id, has its id in the final seen set, or was older than the
cutoff. -/
lemma pollFold_track (now cutoff : Int) (repo : String) :
    ∀ (batch : List RawRecord) (s : PollSt),
      List.Perm (s.store.map (·.id)) s.seen →
      wellFormed s.store →
      s.store.length + batch.length ≤ MAX_CAPACITY →
      (batch.foldl (recordStep now cutoff repo) s).aborted = false →
      List.Perm ((batch.foldl (recordStep now cutoff repo) s).store.map (·.id))
        (batch.foldl (recordStep now cutoff repo) s).seen ∧
      (∀ r ∈ batch, ∃ t, parse_github_time (r.created_at.getD .empty) now = .ok t ∧
        (r.id = none ∨ (∃ i, r.id = some i ∧
          i ∈ (batch.foldl (recordStep now cutoff repo) s).seen) ∨ t ≤ cutoff))
  | [], s, hperm, _, _, _ => ⟨hperm, fun r hr => absurd hr (List.not_mem_nil r)⟩
  | r :: rs, s, hperm, hwf, hcap, hfin => by
    rw [List.foldl_cons] at hfin ⊢
    have hs2 : (recordStep now cutoff repo s r).aborted = false := by
      by_cases hb : (recordStep now cutoff repo s r).aborted
      · rw [foldl_of_aborted now cutoff repo rs _ hb] at hfin
        rw [hb] at hfin
        cases hfin
      · exact Bool.not_eq_true _ |>.mp hb
    have ha : s.aborted = false := by
      by_cases hb : s.aborted
      · rw [recordStep_of_aborted hb] at hs2
        rw [hb] at hs2
        cases hs2
      · exact Bool.not_eq_true _ |>.mp hb
    obtain ⟨t, hp, hout⟩ := recordStep_ok_cases ha hs2
    rcases hout with ⟨heq, hreason⟩ | ⟨i, ty, ts, st', hid, hm, hc, hty, hts, hwts, htr, heq⟩
    · rw [heq] at hfin ⊢
      have hcap2 : s.store.length + rs.length ≤ MAX_CAPACITY := by
        simp only [List.length_cons] at hcap
        omega
      obtain ⟨hperm2, hall⟩ := pollFold_track now cutoff repo rs s hperm hwf hcap2 hfin
      refine ⟨hperm2, ?_⟩
      intro x hx
      rcases List.mem_cons.mp hx with rfl | hx2
      · refine ⟨t, hp, ?_⟩
        rcases hreason with h1 | ⟨i, hi, hmem⟩ | h1
        · exact Or.inl h1
        · exact Or.inr (Or.inl ⟨i, hi, foldl_seen_sub now cutoff repo rs s i hmem⟩)
        · exact Or.inr (Or.inr h1)
      · exact hall x hx2
    · have hlen1 : s.store.length + 1 ≤ MAX_CAPACITY := by
        simp only [List.length_cons] at hcap
        omega
      have hwapp : wellFormed (s.store ++ [mkApiEvent repo r i ty ts]) :=
        wellFormed_append_event hwf hwts
      have hlapp : (s.store ++ [mkApiEvent repo r i ty ts]).length ≤ MAX_CAPACITY := by
        simp only [List.length_append, List.length_singleton]
        exact hlen1
      have hpermtr := trim_perm_of_le hwapp hlapp htr
      have hperm2 : List.Perm ((recordStep now cutoff repo s r).store.map (·.id))
          (recordStep now cutoff repo s r).seen := by
        rw [heq]
        have h1 : List.Perm (st'.map (·.id))
            ((s.store ++ [mkApiEvent repo r i ty ts]).map (·.id)) :=
          hpermtr.map (·.id)
        have h2 : ((s.store ++ [mkApiEvent repo r i ty ts]).map (·.id)) =
            s.store.map (·.id) ++ [i] := by
          simp [mkApiEvent]
        rw [h2] at h1
        exact h1.trans (hperm.append_right [i])
      have hwf2 : wellFormed (recordStep now cutoff repo s r).store := by
        rw [heq]
        intro e he
        exact hwapp e ((trim_subperm htr).subset he)
      have hcap2 : (recordStep now cutoff repo s r).store.length + rs.length ≤ MAX_CAPACITY := by
        rw [heq]
        show st'.length + rs.length ≤ MAX_CAPACITY
        have : st'.length = (s.store ++ [mkApiEvent repo r i ty ts]).length :=
          hpermtr.length_eq
        simp only [List.length_append, List.length_singleton] at this
        simp only [List.length_cons] at hcap
        omega
      obtain ⟨hperm3, hall⟩ :=
        pollFold_track now cutoff repo rs _ hperm2 hwf2 hcap2 hfin
      refine ⟨hperm3, ?_⟩
      intro x hx
      rcases List.mem_cons.mp hx with rfl | hx2
      · refine ⟨t, hp, Or.inr (Or.inl ⟨i, hid, ?_⟩)⟩
        have hin : i ∈ (recordStep now cutoff repo s x).seen := by
          rw [heq]
          exact List.mem_append_right _ (List.mem_singleton.mpr rfl)
        exact foldl_seen_sub now cutoff repo rs _ i hin
      · exact hall x hx2

/-! ### Small auxiliary lemmas for the handlers -/

lemma pollDone_fst (s : PollSt) : (pollDone s).1 = s.store := by
  unfold pollDone
  split <;> rfl

lemma wellFormed_cons {ev : StoredEvent} {st : List StoredEvent}
    (h1 : ev.created_at ≠ TimeStr.malformed) (h2 : wellFormed st) :
    wellFormed (ev :: st) := by
  intro e he
  rcases List.mem_cons.mp he with rfl | h
  · exact h1
  · exact h2 e h

lemma recordStep_wf_len {now cutoff : Int} {repo : String} {s : PollSt} {r : RawRecord}
    (h : wellFormed s.store ∧ s.store.length ≤ MAX_CAPACITY) :
    wellFormed (recordStep now cutoff repo s r).store ∧
      (recordStep now cutoff repo s r).store.length ≤ MAX_CAPACITY := by
  obtain ⟨hw, hlen⟩ := h
  rcases recordStep_cases now cutoff repo s r with heq | heq |
    ⟨i, ty, ts, st', _, _, _, _, hwts, htr, heq⟩ | ⟨i, ty, ts, _, _, _, hwts, htr, heq⟩
  · rw [heq]
    exact ⟨hw, hlen⟩
  · rw [heq]
    exact ⟨hw, hlen⟩
  · rw [heq]
    have hwapp : wellFormed (s.store ++ [mkApiEvent repo r i ty ts]) :=
      wellFormed_append_event hw hwts
    exact ⟨fun e he => hwapp e ((trim_subperm htr).subset he), trim_length htr⟩
  · exfalso
    have hwapp : wellFormed (s.store ++ [mkApiEvent repo r i ty ts]) :=
      wellFormed_append_event hw hwts
    rw [trim_eq_of_wf hwapp] at htr
    cases htr

lemma foldl_wf_len (now cutoff : Int) (repo : String) :
    ∀ (batch : List RawRecord) (s : PollSt),
      wellFormed s.store ∧ s.store.length ≤ MAX_CAPACITY →
      wellFormed (batch.foldl (recordStep now cutoff repo) s).store ∧
        (batch.foldl (recordStep now cutoff repo) s).store.length ≤ MAX_CAPACITY
  | [], _, h => h
  | r :: rs, s, h => by
    rw [List.foldl_cons]
    exact foldl_wf_len now cutoff repo rs _ (recordStep_wf_len h)

lemma mkWebhookEvent_ok {now : Int} {data : WebhookData} {ev : StoredEvent}
    (h : mkWebhookEvent now data = .ok ev) :
    ∃ login repoName,
      jGet data.sender "github-webhook" = .ok login ∧
      jGet data.repository "webhook" = .ok repoName ∧
      ev = { id := .webhook now, type := data.action.getD "webhook_event",
             actor := login, created_at := .valid now,
             payload := pySummary data.payloadStr, repo := repoName,
             source := "github_webhook" } := by
  unfold mkWebhookEvent at h
  cases h1 : jGet data.sender "github-webhook" with
  | error u => rw [h1] at h; cases h
  | ok login =>
    rw [h1] at h
    cases h2 : jGet data.repository "webhook" with
    | error u => rw [h2] at h; cases h
    | ok repoName =>
      rw [h2] at h
      cases h
      exact ⟨login, repoName, rfl, rfl, rfl⟩

lemma dashboardAux_eq_of_wf (now cutoff : Int) : ∀ st, wellFormed st →
    dashboardAux now cutoff st = .ok (st.filter (fun e => decide (cutoff < timeOf now e)))
  | [], _ => rfl
  | e :: es, h => by
    have he := h e (List.mem_cons_self ..)
    have hes : wellFormed es := fun x hx => h x (List.mem_cons_of_mem _ hx)
    rw [List.filter_cons]
    simp only [dashboardAux, parse_eq_timeOf now e he,
      dashboardAux_eq_of_wf now cutoff es hes]
    by_cases hc : cutoff < timeOf now e <;> simp [hc, gt_iff_lt]

/-! ### Claim C1: store uniqueness -/

/-- C1 counterexample: the claim that the Store never holds two Events
with equal identity on any admission sequence, and that admitting a
present identity is a count-preserving no-op, is false: two webhook
deliveries during the same millisecond (`int(time.time()*1000)` equal)
both insert an event with the same synthesized identity — the store then
holds two Events with identity `webhook 1000`, and the second admission
of the already-present identity grew the count from 1 to 2 and was
reported as a success, not as a rejected duplicate. -/
theorem C1_counterexample :
    (github_webhook 1000 [] emptyHook).1.length = 1 ∧
    ((github_webhook 1000 (github_webhook 1000 [] emptyHook).1 emptyHook).1.map (·.id)) =
      [EventId.webhook 1000, EventId.webhook 1000] ∧
    ¬ ((github_webhook 1000 (github_webhook 1000 [] emptyHook).1 emptyHook).1.map
        (·.id)).Nodup ∧
    (github_webhook 1000 (github_webhook 1000 [] emptyHook).1 emptyHook).1.length = 2 ∧
    (github_webhook 1000 (github_webhook 1000 [] emptyHook).1 emptyHook).2 ≠ .error () := by
  decide

/-- C1 amended: the poll path alone preserves identity-uniqueness — from
a store with pairwise-distinct identities, `fetch_events` never creates a
duplicate, and a batch consisting solely of records whose ids are already
present is a complete no-op returning `new_events = 0` with the store
untouched.  The webhook path, by contrast, inserts unconditionally
without a duplicate check (see the counterexample). -/
theorem C1_amended (now : Int) (repo : String) (st : List StoredEvent)
    (batch : List RawRecord)
    (hw : wellFormed st) (hlen : st.length ≤ MAX_CAPACITY)
    (hnd : (st.map (·.id)).Nodup) :
    ((fetch_events now repo st batch).1.map (·.id)).Nodup ∧
    ((∀ r ∈ batch, (∃ t, parse_github_time (r.created_at.getD .empty) now = .ok t) ∧
        ∃ i, r.id = some i ∧ i ∈ st.map (·.id)) →
      fetch_events now repo st batch = (st, .ok ⟨0, st.length, []⟩)) := by
  constructor
  · have hinv : InvS (pollInit st) := ⟨hw, hlen, hnd, fun i hi => hi⟩
    have := foldl_inv now (now - 86400) repo batch (pollInit st) hinv
    rw [fetch_events, pollDone_fst]
    exact this.2.2.1
  · intro hall
    have hfold : batch.foldl (recordStep now (now - 86400) repo) (pollInit st) =
        pollInit st := by
      refine foldl_skip_all now (now - 86400) repo batch (pollInit st) rfl ?_
      intro r hr
      obtain ⟨⟨t, hp⟩, i, hi, hmem⟩ := hall r hr
      exact ⟨t, hp, Or.inr (Or.inl ⟨i, hi, hmem⟩)⟩
    rw [fetch_events, hfold]
    rfl

/-- C1 witness: the amended theorem applied to a one-event store and a
batch that re-sends the same id. -/
theorem C1_witness :
    ((fetch_events 200000 "o/r" [evAt 1 199900] [recAt 1 199900]).1.map (·.id)).Nodup ∧
    ((∀ r ∈ [recAt 1 199900],
        (∃ t, parse_github_time (r.created_at.getD .empty) 200000 = .ok t) ∧
        ∃ i, r.id = some i ∧ i ∈ [evAt 1 199900].map (·.id)) →
      fetch_events 200000 "o/r" [evAt 1 199900] [recAt 1 199900] =
        ([evAt 1 199900], .ok ⟨0, 1, []⟩)) :=
  C1_amended 200000 "o/r" [evAt 1 199900] [recAt 1 199900]
    (by decide) (by decide) (by decide)

/-! ### Claim C2: capacity bound and eviction order -/

/-- C2: after any poll cycle and after any webhook delivery starting from
a within-capacity store, the store holds at most `MAX_CAPACITY = 100`
events, and every sort-truncate (the admission-time eviction, shared by
both paths) retains at most 100 events, removes exactly the complement of
the retained ones (the retained plus the evicted permute the pre-eviction
store), and every evicted event's `occurred_at` is at most every retained
event's `occurred_at`. -/
theorem C2_theorem (now : Int) (repo : String) (st : List StoredEvent)
    (batch : List RawRecord) (data : WebhookData)
    (hw : wellFormed st) (hlen : st.length ≤ MAX_CAPACITY) :
    (fetch_events now repo st batch).1.length ≤ MAX_CAPACITY ∧
    (github_webhook now st data).1.length ≤ MAX_CAPACITY ∧
    (∀ (l l' : List StoredEvent), wellFormed l → trim now l = .ok l' →
      l'.length ≤ MAX_CAPACITY ∧
      ∃ dropped, List.Perm (l' ++ dropped) l ∧
        ∀ a ∈ l', ∀ b ∈ dropped, timeOf now b ≤ timeOf now a) := by
  refine ⟨?_, ?_, ?_⟩
  · rw [fetch_events, pollDone_fst]
    exact (foldl_wf_len now (now - 86400) repo batch (pollInit st) ⟨hw, hlen⟩).2
  · cases hmk : mkWebhookEvent now data with
    | error u =>
      have heq : github_webhook now st data = (st, .error ()) := by
        simp only [github_webhook, hmk]
      rw [heq]
      exact hlen
    | ok ev =>
      obtain ⟨login, repoName, _, _, hev⟩ := mkWebhookEvent_ok hmk
      have hwev : ev.created_at ≠ TimeStr.malformed := by
        rw [hev]
        intro hbad
        cases hbad
      have hwcons : wellFormed (ev :: st) := wellFormed_cons hwev hw
      cases htr : trim now (ev :: st) with
      | ok st' =>
        have heq : github_webhook now st data = (st', .ok ev) := by
          simp only [github_webhook, hmk, htr]
        rw [heq]
        exact trim_length htr
      | error u =>
        exfalso
        rw [trim_eq_of_wf hwcons] at htr
        cases htr
  · intro l l' hwl htr
    exact ⟨trim_length htr, trim_evict hwl htr⟩

/-- C2 witness: a webhook delivery into a full store of 100 events stays
at 100, and a concrete trim retains at most 100 with the evicted ones no
newer than the retained ones. -/
theorem C2_witness :
    (fetch_events 200000 "o/r" [] [recAt 1 199900]).1.length ≤ MAX_CAPACITY ∧
    (github_webhook 200000 [] emptyHook).1.length ≤ MAX_CAPACITY ∧
    (∀ (l l' : List StoredEvent), wellFormed l → trim 200000 l = .ok l' →
      l'.length ≤ MAX_CAPACITY ∧
      ∃ dropped, List.Perm (l' ++ dropped) l ∧
        ∀ a ∈ l', ∀ b ∈ dropped, timeOf 200000 b ≤ timeOf 200000 a) :=
  C2_theorem 200000 "o/r" [] [recAt 1 199900] emptyHook (by decide) (by decide)

/-! ### Claim C3: admission time filtering -/

/-- C3 counterexample: the claim that an event with a not-yet-present
identity is always admitted — in particular one whose `occurred_at` lies
more than 24 hours in the past — is false on the poll path: from an empty
store, a fresh record timestamped 100000 with `now = 200000` (more than
24 hours = 86400 seconds earlier) is not admitted; the cycle succeeds
with `new_events = 0` and the store stays empty. -/
theorem C3_counterexample :
    fetch_events 200000 "o/r" [] [recAt 1 100000] = ([], .ok ⟨0, 0, []⟩) := by
  decide

/-- C3 amended: the poll path admits a record with a fresh id only when
its parsed timestamp is strictly newer than `now - 24h`; a fresh-id
record at or before the cutoff is skipped entirely (not inserted and then
evicted), while a fresh-id record after the cutoff is inserted, subject
only to the capacity truncation. -/
theorem C3_amended (now cutoff : Int) (repo : String) (s : PollSt) (r : RawRecord)
    (i : EventId) (ty : String) (ts : TimeStr) (t : Int)
    (ha : s.aborted = false) (hid : r.id = some i) (hm : ¬ i ∈ s.seen)
    (hty : r.type = some ty) (hts : r.created_at = some ts)
    (hp : parse_github_time ts now = .ok t) (hw : wellFormed s.store) :
    (t ≤ cutoff → recordStep now cutoff repo s r = s) ∧
    (cutoff < t → ∃ st', trim now (s.store ++ [mkApiEvent repo r i ty ts]) = .ok st' ∧
      recordStep now cutoff repo s r =
        { store := st', seen := s.seen ++ [i],
          fresh := s.fresh ++ [mkApiEvent repo r i ty ts], aborted := false }) := by
  have hp2 : parse_github_time (r.created_at.getD .empty) now = .ok t := by
    rw [hts]
    exact hp
  constructor
  · intro hle
    exact recordStep_skip ha hp2 (Or.inr (Or.inr hle))
  · intro hlt
    have hwts : ts ≠ TimeStr.malformed := by
      intro hbad
      rw [hbad] at hp
      simp [parse_github_time] at hp
    have hwapp : wellFormed (s.store ++ [mkApiEvent repo r i ty ts]) :=
      wellFormed_append_event hw hwts
    refine ⟨_, trim_eq_of_wf hwapp, ?_⟩
    simp [recordStep, ha, hp, hid, hm, hlt, hty, hts, trim_eq_of_wf hwapp]

/-- C3 witness: a fresh-id record 25 hours old is skipped; the same
record one hour old is inserted. -/
theorem C3_witness :
    ((100000 : Int) ≤ 200000 - 86400 →
      recordStep 200000 (200000 - 86400) "o/r"
        { store := [], seen := [], fresh := [], aborted := false } (recAt 1 100000) =
        { store := [], seen := [], fresh := [], aborted := false }) ∧
    ((200000 : Int) - 86400 < 100000 → ∃ st',
      trim 200000 ([] ++ [mkApiEvent "o/r" (recAt 1 100000) (.api 1) "PushEvent"
        (.valid 100000)]) = .ok st' ∧
      recordStep 200000 (200000 - 86400) "o/r"
        { store := [], seen := [], fresh := [], aborted := false } (recAt 1 100000) =
        { store := st', seen := [] ++ [.api 1],
          fresh := [] ++ [mkApiEvent "o/r" (recAt 1 100000) (.api 1) "PushEvent"
            (.valid 100000)], aborted := false }) :=
  C3_amended 200000 (200000 - 86400) "o/r"
    { store := [], seen := [], fresh := [], aborted := false } (recAt 1 100000)
    (.api 1) "PushEvent" (.valid 100000) 100000
    rfl (by decide) (by decide) (by decide) (by decide) (by decide) (by decide)

/-! ### Claim C4: window query -/

/-- C4 counterexample: the claim that the dashboard returns exactly the
stored events with `occurred_at >= now - horizon` is false at the
boundary: with `now = 172800` a stored event whose `occurred_at` is
exactly `now - 86400 = 86400` satisfies the claimed `>=` condition but
the handler's strict `>` comparison excludes it — the view is empty. -/
theorem C4_counterexample :
    timeOf 172800 (evAt 1 86400) = 172800 - 86400 ∧
    dashboard 172800 [evAt 1 86400] = .ok [] := by
  decide

/-- C4 amended: the dashboard view is exactly the stored events with
`occurred_at` strictly greater than `now - 24h`, kept in store order (so
newest-first whenever the store is sorted newest-first, which every
admission re-establishes), and it is a pure read: the store list is not
modified, so an out-of-window event still counts toward the store
length. -/
theorem C4_amended (now : Int) (st : List StoredEvent) (hw : wellFormed st) :
    dashboard now st = .ok (st.filter (fun e => decide (now - 86400 < timeOf now e))) ∧
    (List.Pairwise (fun a b => timeOf now b ≤ timeOf now a) st →
      List.Pairwise (fun a b => timeOf now b ≤ timeOf now a)
        (st.filter (fun e => decide (now - 86400 < timeOf now e)))) := by
  constructor
  · exact dashboardAux_eq_of_wf now (now - 86400) st hw
  · intro hs
    exact hs.sublist (List.filter_sublist st)

/-- C4 witness: with events at `now-1h`, `now-23h` and `now-25h`, the
view is exactly the first two in newest-first order while the third
remains stored (the store passed to the dashboard is untouched, length
3). -/
theorem C4_witness :
    dashboard 200000 [evAt 1 (200000 - 3600), evAt 2 (200000 - 82800),
        evAt 3 (200000 - 90000)] =
      .ok ([evAt 1 (200000 - 3600), evAt 2 (200000 - 82800),
        evAt 3 (200000 - 90000)].filter
          (fun e => decide (200000 - 86400 < timeOf 200000 e))) ∧
    ([evAt 1 (200000 - 3600), evAt 2 (200000 - 82800),
        evAt 3 (200000 - 90000)].filter
          (fun e => decide (200000 - 86400 < timeOf 200000 e))) =
      [evAt 1 (200000 - 3600), evAt 2 (200000 - 82800)] ∧
    [evAt 1 (200000 - 3600), evAt 2 (200000 - 82800), evAt 3 (200000 - 90000)].length = 3 :=
  ⟨(C4_amended 200000 [evAt 1 (200000 - 3600), evAt 2 (200000 - 82800),
      evAt 3 (200000 - 90000)] (by decide)).1, by decide, by decide⟩

/-! ### Claim C5: partial-batch resilience -/

/-- C5 counterexample: the claim that any per-record defect (missing
`id` or `type`, or an unparsable field) only skips that record and never
aborts the cycle is false: a record that has an `id` and a fresh
timestamp but no `type` key raises `KeyError` at the dict literal, and
the whole cycle answers with a server error — even though the record
before it was already admitted and stays in the store. -/
theorem C5_counterexample :
    (fetch_events 200000 "o/r" [] [recAt 1 199900, noTypeRec, recAt 3 199700]).2 =
      .error () ∧
    (fetch_events 200000 "o/r" [] [recAt 1 199900, noTypeRec, recAt 3 199700]).1 =
      [mkApiEvent "o/r" (recAt 1 199900) (.api 1) "PushEvent" (.valid 199900)] := by
  decide

/-- C5 amended: only a record whose `id` key is absent (or falsy) is
skipped without aborting — provided its timestamp parses, since the
timestamp is parsed before the id guard; in particular a batch of 5
records where one lacks `id` admits the other 4 and reports
`new_events = 4` without raising.  A record with an `id` but a missing
`type` key or an unparsable `created_at` aborts the whole cycle. -/
theorem C5_amended (now cutoff : Int) (repo : String) (s : PollSt) (r : RawRecord)
    (ha : s.aborted = false) (hid : r.id = none) (t : Int)
    (hp : parse_github_time (r.created_at.getD .empty) now = .ok t) :
    recordStep now cutoff repo s r = s ∧
    (fetch_events 200000 "o/r" []
        [recAt 1 199900, recAt 2 199800, noIdRec, recAt 3 199700, recAt 4 199600]).2 =
      .ok ⟨4, 4,
        [mkApiEvent "o/r" (recAt 1 199900) (.api 1) "PushEvent" (.valid 199900),
         mkApiEvent "o/r" (recAt 2 199800) (.api 2) "PushEvent" (.valid 199800),
         mkApiEvent "o/r" (recAt 3 199700) (.api 3) "PushEvent" (.valid 199700),
         mkApiEvent "o/r" (recAt 4 199600) (.api 4) "PushEvent" (.valid 199600)]⟩ := by
  constructor
  · exact recordStep_skip ha hp (Or.inl hid)
  · decide

/-- C5 witness: the amended theorem applied to a concrete id-less record
in a fresh loop state. -/
theorem C5_witness :
    recordStep 200000 113600 "o/r"
      { store := [], seen := [], fresh := [], aborted := false } noIdRec =
      { store := [], seen := [], fresh := [], aborted := false } ∧
    (fetch_events 200000 "o/r" []
        [recAt 1 199900, recAt 2 199800, noIdRec, recAt 3 199700, recAt 4 199600]).2 =
      .ok ⟨4, 4,
        [mkApiEvent "o/r" (recAt 1 199900) (.api 1) "PushEvent" (.valid 199900),
         mkApiEvent "o/r" (recAt 2 199800) (.api 2) "PushEvent" (.valid 199800),
         mkApiEvent "o/r" (recAt 3 199700) (.api 3) "PushEvent" (.valid 199700),
         mkApiEvent "o/r" (recAt 4 199600) (.api 4) "PushEvent" (.valid 199600)]⟩ :=
  C5_amended 200000 113600 "o/r"
    { store := [], seen := [], fresh := [], aborted := false } noIdRec
    rfl (by decide) 199500 (by decide)

/-! ### Claim C6: webhook normalization -/

/-- C6 counterexample: the claim that every mapping payload is accepted
is false: a mapping whose `sender` value is present but not itself a
mapping makes `data.get('sender', {}).get(...)` raise, the handler
answers 400, and no event is stored or returned. -/
theorem C6_counterexample :
    github_webhook 100 []
      { action := none, sender := some JField.nonDict, repository := none,
        payloadStr := [] } = ([], .error ()) := by
  decide

/-- C6 amended: for every mapping payload whose `sender` and
`repository` values, when present, are themselves mappings — in
particular the empty mapping — the webhook succeeds and returns the
stored event, whose category defaults to `webhook_event`, whose actor
defaults to `github-webhook` when `sender` is absent, and whose
`created_at` is exactly the invocation time.  Missing fields never cause
a failure; only a present non-mapping `sender`/`repository` does. -/
theorem C6_amended (now : Int) (st : List StoredEvent) (data : WebhookData)
    (hw : wellFormed st)
    (hsender : data.sender ≠ some JField.nonDict)
    (hrepo : data.repository ≠ some JField.nonDict) :
    ∃ login repoName,
      jGet data.sender "github-webhook" = .ok login ∧
      jGet data.repository "webhook" = .ok repoName ∧
      (data.sender = none → login = "github-webhook") ∧
      (data.repository = none → repoName = "webhook") ∧
      (github_webhook now st data).2 =
        .ok { id := .webhook now, type := data.action.getD "webhook_event",
              actor := login, created_at := .valid now,
              payload := pySummary data.payloadStr, repo := repoName,
              source := "github_webhook" } := by
  have hs : ∃ login, jGet data.sender "github-webhook" = .ok login ∧
      (data.sender = none → login = "github-webhook") := by
    cases hv : data.sender with
    | none => exact ⟨"github-webhook", rfl, fun _ => rfl⟩
    | some f =>
      cases f with
      | dict v => exact ⟨v.getD "github-webhook", rfl, by intro h; cases h⟩
      | nonDict => exact absurd hv hsender
  have hr : ∃ repoName, jGet data.repository "webhook" = .ok repoName ∧
      (data.repository = none → repoName = "webhook") := by
    cases hv : data.repository with
    | none => exact ⟨"webhook", rfl, fun _ => rfl⟩
    | some f =>
      cases f with
      | dict v => exact ⟨v.getD "webhook", rfl, by intro h; cases h⟩
      | nonDict => exact absurd hv hrepo
  obtain ⟨login, hlogin, hdfl1⟩ := hs
  obtain ⟨repoName, hrepoN, hdfl2⟩ := hr
  have hmk : mkWebhookEvent now data =
      .ok { id := .webhook now, type := data.action.getD "webhook_event",
            actor := login, created_at := .valid now,
            payload := pySummary data.payloadStr, repo := repoName,
            source := "github_webhook" } := by
    simp only [mkWebhookEvent, hlogin, hrepoN]
  have hwcons : wellFormed
      ({ id := .webhook now, type := data.action.getD "webhook_event",
         actor := login, created_at := .valid now,
         payload := pySummary data.payloadStr, repo := repoName,
         source := "github_webhook" } :: st) :=
    wellFormed_cons (by intro h; cases h) hw
  refine ⟨login, repoName, hlogin, hrepoN, hdfl1, hdfl2, ?_⟩
  simp only [github_webhook, hmk, trim_eq_of_wf hwcons]

/-- C6 witness: the amended theorem at the empty mapping over the empty
store. -/
theorem C6_witness :
    ∃ login repoName,
      jGet emptyHook.sender "github-webhook" = .ok login ∧
      jGet emptyHook.repository "webhook" = .ok repoName ∧
      (emptyHook.sender = none → login = "github-webhook") ∧
      (emptyHook.repository = none → repoName = "webhook") ∧
      (github_webhook 555 [] emptyHook).2 =
        .ok { id := .webhook 555, type := emptyHook.action.getD "webhook_event",
              actor := login, created_at := .valid 555,
              payload := pySummary emptyHook.payloadStr, repo := repoName,
              source := "github_webhook" } :=
  C6_amended 555 [] emptyHook (by decide) (by decide) (by decide)

/-! ### Claim C7: timestamp parsing -/

/-- C7 counterexample: the claim that normalization falls back to the
current processing time on any parse failure and never makes a caller
fail is false: `parse_github_time` raises on a non-empty unparsable
string, and a poll cycle over a single record carrying such a timestamp
aborts with a server error, admitting nothing. -/
theorem C7_counterexample :
    parse_github_time TimeStr.malformed 200000 = .error () ∧
    fetch_events 200000 "o/r" []
      [{ id := some (.api 1), type := some "PushEvent", actor := some "alice",
         created_at := some TimeStr.malformed, payloadStr := [] }] =
      ([], .error ()) := by
  decide

/-- C7 amended: the current-time fallback applies only to an absent or
falsy timestamp string; a parseable string yields its own instant, and a
non-empty unparsable string raises, which aborts the polling caller (the
loop state becomes aborted as soon as such a record is reached). -/
theorem C7_amended (now t cutoff : Int) (repo : String) (s : PollSt) (r : RawRecord)
    (ha : s.aborted = false) (hts : r.created_at = some TimeStr.malformed) :
    parse_github_time TimeStr.empty now = .ok now ∧
    parse_github_time (TimeStr.valid t) now = .ok t ∧
    parse_github_time TimeStr.malformed now = .error () ∧
    recordStep now cutoff repo s r = { s with aborted := true } := by
  refine ⟨rfl, rfl, rfl, ?_⟩
  have hp : parse_github_time (r.created_at.getD .empty) now = .error () := by
    rw [hts]
    rfl
  simp [recordStep, ha, hp]

/-- C7 witness: the amended theorem at a concrete malformed-timestamp
record in a fresh loop state. -/
theorem C7_witness :
    parse_github_time TimeStr.empty 200000 = .ok 200000 ∧
    parse_github_time (TimeStr.valid 7) 200000 = .ok 7 ∧
    parse_github_time TimeStr.malformed 200000 = .error () ∧
    recordStep 200000 113600 "o/r"
      { store := [], seen := [], fresh := [], aborted := false }
      { id := some (.api 1), type := some "PushEvent", actor := some "alice",
        created_at := some TimeStr.malformed, payloadStr := [] } =
      { store := [], seen := [], fresh := [], aborted := true } :=
  C7_amended 200000 7 113600 "o/r"
    { store := [], seen := [], fresh := [], aborted := false }
    { id := some (.api 1), type := some "PushEvent", actor := some "alice",
      created_at := some TimeStr.malformed, payloadStr := [] }
    rfl (by decide)

/-! ### Claim C8: idempotent re-poll -/

set_option maxRecDepth 16000 in
/-- C8 counterexample: the claim that a second identical poll always
reports `new_events = 0` is false once capacity eviction strikes.  From
an empty store, `bigBatch` fills the store with its 100 newest events;
polling `[oldRec]` (within the 24-hour window but older than everything
stored) admits it, reports `new_events = 1`, and immediately evicts it
by the capacity truncation; polling the identical `[oldRec]` again —
with no intervening operation — admits it again and reports
`new_events = 1`, not 0 (the total does stay at 100). -/
theorem C8_counterexample :
    (fetch_events 200000 "o/r" (fetch_events 200000 "o/r" [] bigBatch).1 [oldRec]).2 =
      .ok ⟨1, 100, [mkApiEvent "o/r" oldRec (.api 500) "PushEvent" (.valid 150000)]⟩ ∧
    (fetch_events 200000 "o/r"
        (fetch_events 200000 "o/r" (fetch_events 200000 "o/r" [] bigBatch).1 [oldRec]).1
        [oldRec]).2 =
      .ok ⟨1, 100, [mkApiEvent "o/r" oldRec (.api 500) "PushEvent" (.valid 150000)]⟩ := by
  constructor
  · decide
  · decide

/-- C8 amended: re-polling an identical batch immediately after a
successful poll reports `new_events = 0` and leaves the store — hence
`total_events` — untouched, provided the first cycle could not evict
anything: initial store size plus batch size within `MAX_CAPACITY`.
When the first cycle does evict a just-admitted event, the second cycle
re-admits it (see the counterexample). -/
theorem C8_amended (now : Int) (repo : String) (st st₁ : List StoredEvent)
    (batch : List RawRecord) (res₁ : PollResult)
    (hw : wellFormed st) (hcap : st.length + batch.length ≤ MAX_CAPACITY)
    (h1 : fetch_events now repo st batch = (st₁, .ok res₁)) :
    fetch_events now repo st₁ batch = (st₁, .ok ⟨0, res₁.total_events, []⟩) := by
  rw [fetch_events] at h1
  cases hb : (batch.foldl (recordStep now (now - 86400) repo) (pollInit st)).aborted with
  | true =>
    exfalso
    rw [pollDone, if_pos hb] at h1
    cases (Prod.mk.injEq .. |>.mp h1).2
  | false =>
    rw [pollDone, if_neg (by rw [hb]; intro h; cases h)] at h1
    obtain ⟨hst₁, hres⟩ := Prod.mk.injEq .. |>.mp h1
    obtain ⟨hperm, hall⟩ := pollFold_track now (now - 86400) repo batch (pollInit st)
      (List.Perm.refl _) hw hcap hb
    have hskip : batch.foldl (recordStep now (now - 86400) repo) (pollInit st₁) =
        pollInit st₁ := by
      refine foldl_skip_all now (now - 86400) repo batch (pollInit st₁) rfl ?_
      intro r hr
      obtain ⟨t, hp, hreason⟩ := hall r hr
      refine ⟨t, hp, ?_⟩
      rcases hreason with h | ⟨i, hi, hmem⟩ | h
      · exact Or.inl h
      · refine Or.inr (Or.inl ⟨i, hi, ?_⟩)
        have : i ∈ (batch.foldl (recordStep now (now - 86400) repo)
            (pollInit st)).store.map (·.id) := hperm.mem_iff.mpr hmem
        rw [hst₁] at this
        exact this
      · exact Or.inr (Or.inr h)
    rw [fetch_events, hskip]
    have htot : res₁.total_events =
        (batch.foldl (recordStep now (now - 86400) repo) (pollInit st)).store.length := by
      injection hres with h
      rw [← h]
    rw [pollDone]
    have : (pollInit st₁).aborted = false := rfl
    rw [if_neg (by rw [this]; intro h; cases h)]
    refine Prod.mk.injEq .. |>.mpr ⟨rfl, ?_⟩
    rw [htot, hst₁]
    rfl

/-- C8 witness: a one-record batch polled twice from an empty store —
second call reports zero new events on the unchanged store. -/
theorem C8_witness :
    fetch_events 200000 "o/r"
      [mkApiEvent "o/r" (recAt 1 199900) (.api 1) "PushEvent" (.valid 199900)]
      [recAt 1 199900] =
    ([mkApiEvent "o/r" (recAt 1 199900) (.api 1) "PushEvent" (.valid 199900)],
      .ok ⟨0, PollResult.total_events ⟨1, 1,
        [mkApiEvent "o/r" (recAt 1 199900) (.api 1) "PushEvent" (.valid 199900)]⟩, []⟩) :=
  C8_amended 200000 "o/r" []
    [mkApiEvent "o/r" (recAt 1 199900) (.api 1) "PushEvent" (.valid 199900)]
    [recAt 1 199900]
    ⟨1, 1, [mkApiEvent "o/r" (recAt 1 199900) (.api 1) "PushEvent" (.valid 199900)]⟩
    (by decide) (by decide) (by decide)

/-! ### Claim C10: bounded payload excerpt -/

/-- C10: events created by either ingestion path carry as `payload` the
source payload's string form truncated to its first 200 characters with
a three-character suffix appended, hence at most 203 characters; and
starting from a store whose events all satisfy this bound, every event
stored after a poll cycle or a webhook delivery still satisfies it. -/
theorem C10_theorem (now : Int) (repo : String) (st : List StoredEvent)
    (batch : List RawRecord) (data : WebhookData)
    (hst : ∀ e ∈ st, e.payload.length ≤ 203) :
    (∀ l : List Char, pySummary l = l.take 200 ++ ['.', '.', '.'] ∧
      (pySummary l).length ≤ 203) ∧
    (∀ (r : RawRecord) i ty ts,
      (mkApiEvent repo r i ty ts).payload = pySummary r.payloadStr) ∧
    (∀ ev, mkWebhookEvent now data = .ok ev → ev.payload = pySummary data.payloadStr) ∧
    (∀ e ∈ (fetch_events now repo st batch).1, e.payload.length ≤ 203) ∧
    (∀ e ∈ (github_webhook now st data).1, e.payload.length ≤ 203) := by
  refine ⟨fun l => ⟨rfl, pySummary_length l⟩, fun r i ty ts => rfl, ?_, ?_, ?_⟩
  · intro ev hmk
    obtain ⟨login, repoName, _, _, hev⟩ := mkWebhookEvent_ok hmk
    rw [hev]
  · rw [fetch_events, pollDone_fst]
    exact (foldl_payload now (now - 86400) repo batch (pollInit st)
      ⟨hst, fun e he => absurd he (List.not_mem_nil e)⟩).1
  · cases hmk : mkWebhookEvent now data with
    | error u =>
      have heq : github_webhook now st data = (st, .error ()) := by
        simp only [github_webhook, hmk]
      rw [heq]
      exact hst
    | ok ev =>
      obtain ⟨login, repoName, _, _, hev⟩ := mkWebhookEvent_ok hmk
      have hevp : ev.payload.length ≤ 203 := by
        rw [hev]
        exact pySummary_length data.payloadStr
      have hcons : ∀ e ∈ ev :: st, e.payload.length ≤ 203 := by
        intro e he
        rcases List.mem_cons.mp he with rfl | h
        · exact hevp
        · exact hst e h
      cases htr : trim now (ev :: st) with
      | ok st' =>
        have heq : github_webhook now st data = (st', .ok ev) := by
          simp only [github_webhook, hmk, htr]
        rw [heq]
        intro e he
        exact hcons e ((trim_subperm htr).subset he)
      | error u =>
        have heq : github_webhook now st data = (ev :: st, .error ()) := by
          simp only [github_webhook, hmk, htr]
        rw [heq]
        exact hcons

/-- C10 witness: the bound at a concrete store, batch and webhook body
(the webhook body's `str()` form a 250-character string, truncated to
203). -/
theorem C10_witness :
    (∀ l : List Char, pySummary l = l.take 200 ++ ['.', '.', '.'] ∧
      (pySummary l).length ≤ 203) ∧
    (∀ (r : RawRecord) i ty ts,
      (mkApiEvent "o/r" r i ty ts).payload = pySummary r.payloadStr) ∧
    (∀ ev, mkWebhookEvent 200000 (WebhookData.mk none none none
        (List.replicate 250 'x')) = .ok ev →
      ev.payload = pySummary (List.replicate 250 'x')) ∧
    (∀ e ∈ (fetch_events 200000 "o/r" [evAt 1 199900] [recAt 2 199800]).1,
      e.payload.length ≤ 203) ∧
    (∀ e ∈ (github_webhook 200000 [evAt 1 199900]
        (WebhookData.mk none none none (List.replicate 250 'x'))).1,
      e.payload.length ≤ 203) :=
  C10_theorem 200000 "o/r" [evAt 1 199900] [recAt 2 199800]
    (WebhookData.mk none none none (List.replicate 250 'x')) (by decide)
